import Mathlib

/-!
The function `createPersistoid` of redux-persist, as a shallow embedding.

The development follows `src/createPersistoid.js`.  The closure variables of
`createPersistoid` (`lastState`, `stagedState`, `keysToProcess`,
`writePromise`) become the fields of `State`; every function of the source is
a Lean function over that state.  Collaborators that live outside the
repository are parameters: `JSON.stringify` and `KEY_PREFIX` are fields of
`Env`, the transform stages are functions stored in the configuration, the
lodash throttle is the flag `fires` of `update` (did this call invoke
`processKeys`?) together with the call `timer` (a deferred invocation), and
the storage backend is the log `writes` of the `setItem` calls it received;
the way a write settles and the value of `throttledProcess.env` are arguments
of `settleHandle`.
-/

namespace ReduxPersist

/-! ## JavaScript values -/

/-- JavaScript values as far as the persistoid can tell them apart: the
primitives, and objects that carry a reference (their identity) besides their
own properties.  Two objects with equal `props` and different `ref` have the
same content and are different references. -/
inductive Val where
  | undefined : Val
  | null : Val
  | bool (b : Bool) : Val
  | num (n : Int) : Val
  | nan : Val
  | str (s : String) : Val
  | obj (ref : Nat) (props : List (String × Val)) : Val

/-- An object seen through its own enumerable properties, in `Object.keys`
order. -/
abbrev Obj := List (String × Val)

/-- The test `typeof v === 'undefined'`. -/
def Val.isUndefined : Val → Bool
  | .undefined => true
  | _ => false

/-- The operator `===`: primitives compare by value (`NaN` differs from
itself), objects by reference only. -/
def strictEq : Val → Val → Bool
  | .undefined, .undefined => true
  | .null, .null => true
  | .bool a, .bool b => a == b
  | .num a, .num b => a == b
  | .str a, .str b => a == b
  | .obj r _, .obj r' _ => r == r'
  | _, _ => false

/-- Own-property lookup: `some o[key]` when `o` has the own property `key`,
`none` otherwise. -/
def lookup : Obj → String → Option Val
  | [], _ => none
  | (k, v) :: rest, key => if k = key then some v else lookup rest key

/-- Property read `o[key]`: a missing key reads as `undefined`.  Properties
inherited from `Object.prototype` are left out of the model. -/
def get (o : Obj) (key : String) : Val :=
  match lookup o key with
  | some v => v
  | none => .undefined

/-- The list `Object.keys(o)`. -/
def keys (o : Obj) : List String := o.map Prod.fst

/-- Assignment `o[key] = v`: an existing key keeps its position, a new key is
appended (the numeric ordering that JavaScript gives integer-like keys is left
out of the model; the theorems below read the staged map key by key). -/
def set : Obj → String → Val → Obj
  | [], key, v => [(key, v)]
  | (k, w) :: rest, key, v => if k = key then (k, v) :: rest else (k, w) :: set rest key v

/-- The statement `delete o[key]`. -/
def delete : Obj → String → Obj
  | [], _ => []
  | (k, w) :: rest, key => if k = key then delete rest key else (k, w) :: delete rest key

/-- Helper of `indexOf`: the search from position `i`. -/
def indexOfFrom : List String → String → Nat → Int
  | [], _, _ => -1
  | x :: xs, key, i => if x = key then (i : Int) else indexOfFrom xs key (i + 1)

/-- The method `Array.prototype.indexOf`: the first position of `key`, or `-1`. -/
def indexOf (xs : List String) (key : String) : Int := indexOfFrom xs key 0

/-! ## Configuration and environment -/

/-- The `in` method of a transformer: `(subState, key, fullState)` to the new
sub-state; `Except.error` is a thrown exception. -/
abbrev Transform := Val → String → Obj → Except Val Val

/-- The fields of `PersistConfig` that `createPersistoid` reads.  `none` is a
missing (falsy) field; `serialize` is kept as a raw value because the source
compares it with `false` by `===`. -/
structure PersistConfig where
  key : String
  keyPrefix : Option String
  blacklist : Option (List String)
  whitelist : Option (List String)
  transforms : Option (List Transform)
  throttle : Option Nat
  serialize : Val

/-- What the module takes from outside the repository: the constant
`KEY_PREFIX` of `./constants` and the built-in `JSON.stringify`, which may
throw (`Except.error`). -/
structure Env where
  KEY_PREFIX : String
  stringify : Val → Except Val Val

/-- The function `defaultSerialize`: `JSON.stringify(data)`. -/
def defaultSerialize (env : Env) (data : Val) : Except Val Val := env.stringify data

/-- The local `serialize`: the identity when `config.serialize === false`,
`defaultSerialize` otherwise. -/
def serialize (env : Env) (config : PersistConfig) (x : Val) : Except Val Val :=
  if strictEq config.serialize (.bool false) then .ok x else defaultSerialize env x

/-- The local `transforms`: `config.transforms || []`. -/
def transformsOf (config : PersistConfig) : List Transform :=
  match config.transforms with
  | some ts => ts
  | none => []

/-- The local `storageKey`: the prefix (the default only when `keyPrefix` is
undefined) followed by `config.key`. -/
def storageKey (env : Env) (config : PersistConfig) : String :=
  (match config.keyPrefix with
   | some p => p
   | none => env.KEY_PREFIX) ++ config.key

/-- The function `passWhitelistBlacklist`. -/
def passWhitelistBlacklist (config : PersistConfig) (key : String) : Bool :=
  if (match config.whitelist with
      | some wl => indexOf wl key == -1 && key != "_persist"
      | none => false) then false
  else if (match config.blacklist with
      | some bl => indexOf bl key != -1
      | none => false) then false
  else true

/-! ## Instance state -/

/-- The mutable locals of one persistoid, with two logs of what it sent to
its collaborators: `writes` lists the `storage.setItem(key, value)` calls,
oldest first, and `errors` the values passed to `console.error` by the
serialization handler.  `writePromise` is `none` for `null`; `some n` is the
promise chained on the `n`-th write. -/
structure State where
  lastState : Obj
  stagedState : Obj
  keysToProcess : List String
  writePromise : Option Nat
  writes : List (String × Val)
  errors : List Val

/-- The state right after `createPersistoid(config)`. -/
def State.init : State :=
  { lastState := [], stagedState := [], keysToProcess := [],
    writePromise := none, writes := [], errors := [] }

/-- The reference of the object bound to `stagedState`; it is created once
and never reassigned. -/
def stagedRef : Nat := 0

/-- The object `stagedState` as a value, as it is passed to `serialize`. -/
def stagedVal (staged : Obj) : Val := .obj stagedRef staged

/-! ## `update` -/

/-- The body of the `forEach` callback of `update` for one key, on the queue. -/
def enqueueKey (config : PersistConfig) (lastState state : Obj)
    (queue : List String) (key : String) : List String :=
  if !passWhitelistBlacklist config key then queue
  else if strictEq (get lastState key) (get state key) then queue
  else if indexOf queue key != -1 then queue
  else queue ++ [key]

/-- The scan `Object.keys(state).forEach(...)` of `update`. -/
def enqueue (config : PersistConfig) (lastState state : Obj)
    (queue : List String) : List String :=
  (keys state).foldl (enqueueKey config lastState state) queue

/-! ## `processKeys` -/

/-- The call `transforms.reduce(...)` of `processKeys`, started at `init`;
a throwing stage aborts the reduction. -/
def applyTransforms (transforms : List Transform) (key : String) (lastState : Obj)
    (init : Val) : Except Val Val :=
  transforms.foldlM (fun subState transformer => transformer subState key lastState) init

/-- What the `while` loop leaves behind: the queue, the staged map, the
error log, and the exception that ended it, if any. -/
structure Drained where
  keysToProcess : List String
  stagedState : Obj
  errors : List Val
  thrown : Option Val

/-- The body of the `while` loop after `key` was shifted off the queue and
the pipeline returned `endState`: staged map and error log afterwards. -/
def stageKey (env : Env) (config : PersistConfig) (key : String) (endState : Val)
    (staged : Obj) (errors : List Val) : Obj × List Val :=
  if !endState.isUndefined then
    match serialize env config endState with
    | .ok encoded => (set staged key encoded, errors)
    | .error err => (staged, errors ++ [err])
  else (delete staged key, errors)

/-- The `while (keysToProcess.length > 0)` loop of `processKeys`. -/
def drain (env : Env) (config : PersistConfig) (lastState : Obj) :
    List String → Obj → List Val → Drained
  | [], staged, errors =>
    { keysToProcess := [], stagedState := staged, errors := errors, thrown := none }
  | key :: rest, staged, errors =>
    match applyTransforms (transformsOf config) key lastState (get lastState key) with
    | .error e =>
      { keysToProcess := rest, stagedState := staged, errors := errors, thrown := some e }
    | .ok endState =>
      drain env config lastState rest
        (stageKey env config key endState staged errors).1
        (stageKey env config key endState staged errors).2

/-- The body of the clean-up callback for one key. -/
def cleanupKey (lastState : Obj) (staged : Obj) (key : String) : Obj :=
  if strictEq (get lastState key) .undefined then delete staged key else staged

/-- The clean-up pass `Object.keys(stagedState).forEach(...)`. -/
def cleanup (lastState : Obj) (staged : Obj) : Obj :=
  (keys staged).foldl (cleanupKey lastState) staged

/-- The function `processKeys`.  The second component is the exception that
escaped, if any: one thrown by a transform stage inside the loop, or by
`serialize(stagedState)`, which is outside the `try`. -/
def processKeys (env : Env) (config : PersistConfig) (st : State) : State × Option Val :=
  let d := drain env config st.lastState st.keysToProcess st.stagedState st.errors
  match d.thrown with
  | some e =>
    ({ st with keysToProcess := d.keysToProcess, stagedState := d.stagedState,
               errors := d.errors }, some e)
  | none =>
    let staged := cleanup st.lastState d.stagedState
    match serialize env config (stagedVal staged) with
    | .error e =>
      ({ st with keysToProcess := d.keysToProcess, stagedState := staged,
                 errors := d.errors }, some e)
    | .ok record =>
      ({ st with keysToProcess := d.keysToProcess, stagedState := staged,
                 errors := d.errors,
                 writes := st.writes ++ [(storageKey env config, record)],
                 writePromise := some st.writes.length }, none)

/-- The function `update`.  `fires` says whether `throttledProcess()` invoked
`processKeys` during this call. -/
def update (env : Env) (config : PersistConfig) (fires : Bool) (state : Obj)
    (st : State) : State × Option Val :=
  let st1 := { st with
    keysToProcess := enqueue config st.lastState state st.keysToProcess,
    lastState := state }
  if fires then processKeys env config st1 else (st1, none)

/-- What `flush` returns: the promise chained on the `n`-th write, or a fresh
`Promise.resolve()`. -/
inductive Handle where
  | ofWrite (n : Nat) : Handle
  | resolved : Handle
  deriving DecidableEq

/-- The function `flush`: the state afterwards and either the exception that
escaped `processKeys` or the returned handle. -/
def flush (env : Env) (config : PersistConfig) (st : State) : State × Except Val Handle :=
  match processKeys env config st with
  | (st1, some e) => (st1, .error e)
  | (st1, none) =>
    (st1, .ok (match st1.writePromise with
               | some n => .ofWrite n
               | none => .resolved))

/-! ## Call sequences -/

/-- What can happen to an instance: the host calls `update` or `flush`, or
the throttle invokes `processKeys` on its own (`timer`). -/
inductive Call where
  | update (state : Obj) (fires : Bool) : Call
  | flush : Call
  | timer : Call

/-- One call; an exception reaches the caller and the instance lives on. -/
def step (env : Env) (config : PersistConfig) (st : State) : Call → State
  | .update state fires => (update env config fires state st).1
  | .flush => (flush env config st).1
  | .timer => (processKeys env config st).1

/-- A sequence of calls. -/
def run (env : Env) (config : PersistConfig) (st : State) (calls : List Call) : State :=
  calls.foldl (step env config) st

/-- The test of `update` that decides whether a key is pushed on `queue`. -/
def isEnqueued (config : PersistConfig) (lastState state : Obj) (queue : List String)
    (key : String) : Bool :=
  passWhitelistBlacklist config key && !strictEq (get lastState key) (get state key)
    && decide (key ∉ queue)

/-- The entry of the staged map at `key` once the loop body has run for
`key`, from the entry `prior` it had before: the encoded pipeline result, no
entry when the result is `undefined`, the prior entry when encoding fails. -/
def stagedEntry (env : Env) (config : PersistConfig) (lastState : Obj) (key : String)
    (prior : Option Val) : Option Val :=
  match applyTransforms (transformsOf config) key lastState (get lastState key) with
  | .error _ => prior
  | .ok endState =>
    if endState.isUndefined then none
    else match serialize env config endState with
      | .ok encoded => some encoded
      | .error _ => prior

/-- The transform pipeline in the specification's words: the stages are
applied left to right, each to the value so far, the key and the full
snapshot; the first stage starts from `value`. -/
def reduceStages : List Transform → String → Obj → Val → Except Val Val
  | [], _, _, value => .ok value
  | stage :: rest, key, snapshot, value =>
    match stage value key snapshot with
    | .ok next => reduceStages rest key snapshot next
    | .error e => .error e

mutual
/-- A small JSON printer (no escaping) that stands in for `JSON.stringify` in
the examples; `none` is the result `undefined`. -/
def jsonOf : Val → Option String
  | .undefined => none
  | .null => some "null"
  | .bool b => some (if b then "true" else "false")
  | .num n => some (toString n)
  | .nan => some "null"
  | .str s => some ("\"" ++ s ++ "\"")
  | .obj _ props => some ("\x7b" ++ ",".intercalate (jsonProps props) ++ "\x7d")
/-- The printed properties of an object; a property without a JSON form is
left out. -/
def jsonProps : List (String × Val) → List String
  | [] => []
  | (k, v) :: rest =>
    match jsonOf v with
    | some s => ("\"" ++ k ++ "\":" ++ s) :: jsonProps rest
    | none => jsonProps rest
end

/-- The value `JSON.stringify` returns in the examples: the printed string,
or `undefined` for a value without a JSON form. -/
def exampleEncode (v : Val) : Val :=
  match jsonOf v with
  | some s => .str s
  | none => .undefined

/-- The environment of the examples; its `JSON.stringify` never throws. -/
def exampleEnv : Env :=
  { KEY_PREFIX := "persist:", stringify := fun v => .ok (exampleEncode v) }

/-- A configuration with key `root` and nothing else set. -/
def plainConfig : PersistConfig :=
  { key := "root", keyPrefix := none, blacklist := none, whitelist := none,
    transforms := none, throttle := none, serialize := .undefined }

/-- A stage that returns `undefined` whatever it is given. -/
def dropStage : Transform := fun _ _ _ => .ok .undefined

/-- A stage that returns `5` whatever it is given. -/
def fillStage : Transform := fun _ _ _ => .ok (.num 5)

/-- A stage that replaces the value of key `a` by the snapshot's value at `b`
and leaves the other keys alone. -/
def copyStage : Transform := fun value key snapshot =>
  if key = "a" then .ok (get snapshot "b") else .ok value

/-! ## Invariants -/

/-- The queue and the staged map hold only keys the filter accepts, and every
record handed to storage encodes a map of such keys. -/
def FilterInv (env : Env) (config : PersistConfig) (st : State) : Prop :=
  (∀ k ∈ st.keysToProcess, passWhitelistBlacklist config k = true) ∧
  (∀ k ∈ keys st.stagedState, passWhitelistBlacklist config k = true) ∧
  (∀ w ∈ st.writes, ∃ m : Obj, serialize env config (stagedVal m) = .ok w.2 ∧
    ∀ k ∈ keys m, passWhitelistBlacklist config k = true)

/-- The conversion of a value to a boolean, as `&&` and `||` apply it. -/
def truthy : Val → Bool
  | .undefined => false
  | .null => false
  | .bool b => b
  | .num n => n != 0
  | .nan => false
  | .str s => s != ""
  | .obj _ _ => true

/-- The `TypeError` that a property read on `undefined` or `null` throws. -/
def typeError : Val := .obj 1 [("name", .str "TypeError")]

/-- Property read `v[name]` on an arbitrary value: it throws on `undefined`
and `null`, and a primitive has no own property. -/
def getProp (v : Val) (name : String) : Except Val Val :=
  match v with
  | .undefined => .error typeError
  | .null => .error typeError
  | .obj _ props => .ok (get props name)
  | _ => .ok .undefined

/-- The function `onWriteFail`.  `throttledEnv` is the value of
`throttledProcess.env`, a property of the function that lodash `throttle`
returned; the result lists the values passed to `console.error`, and
`Except.error` is an exception thrown by the handler. -/
def onWriteFail (throttledEnv : Val) (err : Val) : Except Val (List Val) :=
  if truthy err then
    match getProp throttledEnv "NODE_ENV" with
    | .error e => .error e
    | .ok nodeEnv => if !strictEq nodeEnv (.str "production") then .ok [err] else .ok []
  else .ok []

/-- How a promise settles. -/
inductive Settled where
  | fulfilled (value : Val) : Settled
  | rejected (reason : Val) : Settled

/-- The promise `storage.setItem(...).catch(onWriteFail)`, from the way the
promise of `setItem` settles: a fulfilment passes through, a rejection is
handed to `onWriteFail` and the promise settles with what the handler does. -/
def settle (throttledEnv : Val) : Settled → Settled
  | .fulfilled value => .fulfilled value
  | .rejected err =>
    match onWriteFail throttledEnv err with
    | .ok _ => .fulfilled .undefined
    | .error e => .rejected e

/-- How the handle returned by `flush` settles; `outcomes n` is the way the
promise of the `n`-th `setItem` call settles. -/
def settleHandle (throttledEnv : Val) (outcomes : Nat → Settled) : Handle → Settled
  | .ofWrite n => settle throttledEnv (outcomes n)
  | .resolved => .fulfilled .undefined

/-- A stage that throws whatever it is given. -/
def failStage : Transform := fun _ _ _ => .error (.str "stage failed")

/-- An environment whose `JSON.stringify` throws on the object with
reference 7, which stands for a value without a JSON form such as a circular
structure, and prints every other value. -/
def failingEnv : Env :=
  { KEY_PREFIX := "persist:",
    stringify := fun v =>
      match v with
      | .obj ref _ => if ref = 7 then .error typeError else .ok (exampleEncode v)
      | _ => .ok (exampleEncode v) }

/-! ## Lemmas on arrays and objects -/

theorem delete_eq_filter (o : Obj) (key : String) :
    delete o key = o.filter (fun p => decide (p.1 ≠ key)) := by
  induction o with
  | nil => rfl
  | cons p rest ih =>
    obtain ⟨k, w⟩ := p
    unfold delete
    by_cases hk : k = key
    · simp [hk, ih]
    · simp [hk, ih]

theorem lookup_cons (k : String) (v : Val) (rest : Obj) (key : String) :
    lookup ((k, v) :: rest) key = if k = key then some v else lookup rest key := rfl

theorem lookup_filter (o : Obj) (P : String → Bool) (key : String) :
    lookup (o.filter (fun p => P p.1)) key = if P key then lookup o key else none := by
  induction o with
  | nil => simp [lookup]
  | cons p rest ih =>
    obtain ⟨k, w⟩ := p
    by_cases hP : P k = true
    · rw [List.filter_cons_of_pos (by simpa using hP), lookup_cons, lookup_cons]
      by_cases hk : k = key
      · subst hk
        simp [hP]
      · simp only [hk, if_false]
        exact ih
    · rw [List.filter_cons_of_neg (by simpa using hP), ih, lookup_cons]
      by_cases hk : k = key
      · subst hk
        simp [hP]
      · simp [hk]

theorem lookup_delete (o : Obj) (key k : String) :
    lookup (delete o key) k = if k = key then none else lookup o k := by
  rw [delete_eq_filter]
  have := lookup_filter o (fun x => decide (x ≠ key)) k
  simp only [] at this
  rw [this]
  by_cases hk : k = key <;> simp [hk]

theorem lookup_set (o : Obj) (key : String) (v : Val) (k : String) :
    lookup (set o key v) k = if k = key then some v else lookup o k := by
  induction o with
  | nil =>
    unfold set lookup
    by_cases hk : key = k
    · simp [hk]
    · have : ¬ k = key := fun e => hk e.symm
      simp [hk, this, lookup]
  | cons p rest ih =>
    obtain ⟨k0, w⟩ := p
    unfold set
    by_cases h0 : k0 = key
    · subst h0
      simp only [if_true]
      unfold lookup
      by_cases hk : k0 = k
      · simp [hk]
      · have : ¬ k = k0 := fun e => hk e.symm
        simp [hk, this]
    · simp only [h0, if_false]
      unfold lookup
      by_cases hk : k0 = k
      · have : ¬ k = key := fun e => h0 (hk.trans e)
        simp [hk, this]
      · simp only [hk, if_false]
        exact ih

theorem lookup_eq_none_iff (o : Obj) (key : String) :
    lookup o key = none ↔ key ∉ keys o := by
  induction o with
  | nil => simp [lookup, keys]
  | cons p rest ih =>
    obtain ⟨k, w⟩ := p
    unfold lookup
    by_cases hk : k = key
    · simp [hk, keys]
    · have hne : ¬ key = k := fun e => hk e.symm
      simp only [hk, if_false, ih]
      simp [keys, hne]

theorem mem_keys_iff_lookup (o : Obj) (key : String) :
    key ∈ keys o ↔ ∃ v, lookup o key = some v := by
  constructor
  · intro h
    cases hl : lookup o key with
    | none => exact absurd h ((lookup_eq_none_iff o key).mp hl)
    | some v => exact ⟨v, rfl⟩
  · rintro ⟨v, hv⟩
    by_contra hn
    rw [(lookup_eq_none_iff o key).mpr hn] at hv
    cases hv

theorem mem_keys_set (o : Obj) (key : String) (v : Val) (k : String) :
    k ∈ keys (set o key v) ↔ k = key ∨ k ∈ keys o := by
  rw [mem_keys_iff_lookup, mem_keys_iff_lookup, lookup_set]
  by_cases hk : k = key <;> simp [hk]

theorem mem_keys_delete (o : Obj) (key k : String) :
    k ∈ keys (delete o key) ↔ k ≠ key ∧ k ∈ keys o := by
  rw [mem_keys_iff_lookup, mem_keys_iff_lookup, lookup_delete]
  by_cases hk : k = key <;> simp [hk]

theorem get_of_not_mem_keys (o : Obj) (key : String) (h : key ∉ keys o) :
    get o key = .undefined := by
  simp [get, (lookup_eq_none_iff o key).mpr h]


theorem indexOfFrom_ne_neg_one_of_mem (xs : List String) (key : String) (i : Nat)
    (h : key ∈ xs) : (i : Int) ≤ indexOfFrom xs key i := by
  induction xs generalizing i with
  | nil => cases h
  | cons x xs ih =>
    unfold indexOfFrom
    by_cases hx : x = key
    · simp [hx]
    · simp only [hx, if_false]
      have hmem : key ∈ xs := by
        rcases List.mem_cons.mp h with h1 | h1
        · exact absurd h1.symm hx
        · exact h1
      have := ih (i + 1) hmem
      omega

theorem indexOfFrom_of_not_mem (xs : List String) (key : String) (i : Nat)
    (h : key ∉ xs) : indexOfFrom xs key i = -1 := by
  induction xs generalizing i with
  | nil => rfl
  | cons x xs ih =>
    unfold indexOfFrom
    have hx : x ≠ key := fun e => h (by simp [e])
    simp only [hx, if_false]
    exact ih (i + 1) (fun hm => h (List.mem_cons_of_mem _ hm))

theorem indexOf_eq_neg_one_iff (xs : List String) (key : String) :
    indexOf xs key = -1 ↔ key ∉ xs := by
  constructor
  · intro h hm
    have := indexOfFrom_ne_neg_one_of_mem xs key 0 hm
    unfold indexOf at h
    omega
  · exact indexOfFrom_of_not_mem xs key 0

theorem strictEq_undefined_right (v : Val) : strictEq v .undefined = v.isUndefined := by
  cases v <;> rfl

theorem enqueueKey_eq (config : PersistConfig) (lastState state : Obj)
    (queue : List String) (key : String) :
    enqueueKey config lastState state queue key =
      if isEnqueued config lastState state queue key then queue ++ [key] else queue := by
  unfold enqueueKey isEnqueued
  by_cases hp : passWhitelistBlacklist config key = true
  · by_cases he : strictEq (get lastState key) (get state key) = true
    · simp [hp, he]
    · by_cases hq : key ∈ queue
      · have : indexOf queue key ≠ -1 := fun e => (indexOf_eq_neg_one_iff queue key).mp e hq
        simp [hp, he, hq, this]
      · have : indexOf queue key = -1 := (indexOf_eq_neg_one_iff queue key).mpr hq
        simp [hp, he, hq, this]
  · simp [hp]

theorem mem_enqueueKey (config : PersistConfig) (lastState state : Obj)
    (queue : List String) (key k : String) :
    k ∈ enqueueKey config lastState state queue key ↔
      k ∈ queue ∨ (k = key ∧ passWhitelistBlacklist config k = true ∧
        strictEq (get lastState k) (get state k) = false) := by
  rw [enqueueKey_eq]
  by_cases hq : isEnqueued config lastState state queue key = true
  · simp only [hq, if_true, List.mem_append, List.mem_singleton]
    simp only [isEnqueued, Bool.and_eq_true, Bool.not_eq_true', decide_eq_true_eq] at hq
    constructor
    · rintro (h | h)
      · exact Or.inl h
      · exact Or.inr ⟨h, h ▸ hq.1.1, h ▸ hq.1.2⟩
    · rintro (h | h)
      · exact Or.inl h
      · exact Or.inr h.1
  · simp only [hq, Bool.false_eq_true, if_false]
    constructor
    · exact Or.inl
    · rintro (h | ⟨h1, h2, h3⟩)
      · exact h
      · subst h1
        by_contra hn
        apply hq
        simp [isEnqueued, h2, h3, hn]

theorem mem_foldl_enqueueKey (config : PersistConfig) (lastState state : Obj)
    (ks : List String) (queue : List String) (k : String) :
    k ∈ ks.foldl (enqueueKey config lastState state) queue ↔
      k ∈ queue ∨ (k ∈ ks ∧ passWhitelistBlacklist config k = true ∧
        strictEq (get lastState k) (get state k) = false) := by
  induction ks generalizing queue with
  | nil => simp
  | cons x ks ih =>
    rw [List.foldl_cons, ih, mem_enqueueKey]
    simp only [List.mem_cons]
    tauto

theorem mem_enqueue (config : PersistConfig) (lastState state : Obj)
    (queue : List String) (k : String) :
    k ∈ enqueue config lastState state queue ↔
      k ∈ queue ∨ (k ∈ keys state ∧ passWhitelistBlacklist config k = true ∧
        strictEq (get lastState k) (get state k) = false) :=
  mem_foldl_enqueueKey config lastState state (keys state) queue k

theorem foldl_cleanupKey (lastState : Obj) (ks : List String) (staged : Obj) :
    ks.foldl (cleanupKey lastState) staged =
      staged.filter (fun p => !(decide (p.1 ∈ ks) && (get lastState p.1).isUndefined)) := by
  induction ks generalizing staged with
  | nil => simp
  | cons k ks ih =>
    rw [List.foldl_cons, ih]
    unfold cleanupKey
    rw [strictEq_undefined_right]
    by_cases hu : (get lastState k).isUndefined = true
    · simp only [hu, if_true]
      rw [delete_eq_filter, List.filter_filter]
      apply List.filter_congr
      intro p _
      by_cases hp : p.1 = k
      · simp [hp, hu]
      · simp [hp]
    · simp only [hu, Bool.false_eq_true, if_false]
      apply List.filter_congr
      intro p _
      by_cases hp : p.1 = k
      · simp [hp, hu]
      · simp [hp]

theorem cleanup_eq_filter (lastState staged : Obj) :
    cleanup lastState staged =
      staged.filter (fun p => !(get lastState p.1).isUndefined) := by
  unfold cleanup
  rw [foldl_cleanupKey]
  apply List.filter_congr
  intro p hp
  have : p.1 ∈ keys staged := List.mem_map_of_mem Prod.fst hp
  simp [this]

theorem lookup_cleanup (lastState staged : Obj) (key : String) :
    lookup (cleanup lastState staged) key =
      if (get lastState key).isUndefined then none else lookup staged key := by
  rw [cleanup_eq_filter]
  have := lookup_filter staged (fun x => !(get lastState x).isUndefined) key
  simp only [] at this
  rw [this]
  by_cases hu : (get lastState key).isUndefined = true <;> simp [hu]

theorem cleanup_idem (lastState staged : Obj) :
    cleanup lastState (cleanup lastState staged) = cleanup lastState staged := by
  rw [cleanup_eq_filter, cleanup_eq_filter, List.filter_filter]
  apply List.filter_congr
  intro p _
  simp

theorem mem_keys_cleanup (lastState staged : Obj) (key : String) :
    key ∈ keys (cleanup lastState staged) ↔
      (get lastState key).isUndefined = false ∧ key ∈ keys staged := by
  rw [mem_keys_iff_lookup, mem_keys_iff_lookup, lookup_cleanup]
  by_cases hu : (get lastState key).isUndefined = true <;> simp [hu]

theorem stagedEntry_idem (env : Env) (config : PersistConfig) (lastState : Obj)
    (key : String) (prior : Option Val) :
    stagedEntry env config lastState key (stagedEntry env config lastState key prior) =
      stagedEntry env config lastState key prior := by
  unfold stagedEntry
  cases applyTransforms (transformsOf config) key lastState (get lastState key) with
  | error e => rfl
  | ok endState =>
    simp only []
    by_cases hu : endState.isUndefined = true
    · simp [hu]
    · simp only [hu, Bool.false_eq_true, if_false]
      cases serialize env config endState <;> rfl

theorem lookup_stageKey (env : Env) (config : PersistConfig) (lastState : Obj)
    (key : String) (endState : Val) (staged : Obj) (errors : List Val)
    (hpipe : applyTransforms (transformsOf config) key lastState (get lastState key)
      = .ok endState) (k : String) :
    lookup (stageKey env config key endState staged errors).1 k =
      if k = key then stagedEntry env config lastState key (lookup staged key)
      else lookup staged k := by
  unfold stageKey stagedEntry
  rw [hpipe]
  simp only []
  by_cases hu : endState.isUndefined = true
  · simp only [hu, Bool.not_true, Bool.false_eq_true, if_false, if_true]
    rw [lookup_delete]
  · simp only [hu, Bool.not_false, Bool.false_eq_true, if_true, if_false]
    cases hs : serialize env config endState with
    | ok encoded =>
      simp only []
      rw [lookup_set]
    | error err =>
      simp only []
      by_cases hk : k = key <;> simp [hk]

theorem mem_keys_stageKey (env : Env) (config : PersistConfig)
    (key : String) (endState : Val) (staged : Obj) (errors : List Val) (k : String)
    (h : k ∈ keys (stageKey env config key endState staged errors).1) :
    k = key ∨ k ∈ keys staged := by
  unfold stageKey at h
  by_cases hu : endState.isUndefined = true
  · simp only [hu, Bool.not_true, Bool.false_eq_true, if_false] at h
    exact Or.inr ((mem_keys_delete staged key k).mp h).2
  · simp only [hu, Bool.not_false, if_true] at h
    cases hs : serialize env config endState with
    | ok encoded =>
      rw [hs] at h
      exact (mem_keys_set staged key encoded k).mp h
    | error err =>
      rw [hs] at h
      exact Or.inr h

theorem drain_cons_ok (env : Env) (config : PersistConfig) (lastState : Obj)
    (key : String) (rest : List String) (staged : Obj) (errors : List Val) (endState : Val)
    (hpipe : applyTransforms (transformsOf config) key lastState (get lastState key)
      = .ok endState) :
    drain env config lastState (key :: rest) staged errors =
      drain env config lastState rest
        (stageKey env config key endState staged errors).1
        (stageKey env config key endState staged errors).2 := by
  rw [drain, hpipe]

theorem drain_cons_error (env : Env) (config : PersistConfig) (lastState : Obj)
    (key : String) (rest : List String) (staged : Obj) (errors : List Val) (e : Val)
    (hpipe : applyTransforms (transformsOf config) key lastState (get lastState key)
      = .error e) :
    drain env config lastState (key :: rest) staged errors =
      { keysToProcess := rest, stagedState := staged, errors := errors, thrown := some e } := by
  rw [drain, hpipe]

theorem drain_queue_subset (env : Env) (config : PersistConfig) (lastState : Obj)
    (queue : List String) (staged : Obj) (errors : List Val) (k : String)
    (h : k ∈ (drain env config lastState queue staged errors).keysToProcess) :
    k ∈ queue := by
  induction queue generalizing staged errors with
  | nil => simp [drain] at h
  | cons key rest ih =>
    cases hpipe : applyTransforms (transformsOf config) key lastState (get lastState key) with
    | error e =>
      rw [drain_cons_error _ _ _ _ _ _ _ _ hpipe] at h
      exact List.mem_cons_of_mem _ h
    | ok endState =>
      rw [drain_cons_ok _ _ _ _ _ _ _ _ hpipe] at h
      exact List.mem_cons_of_mem _ (ih _ _ h)

theorem drain_of_thrown_none (env : Env) (config : PersistConfig) (lastState : Obj)
    (queue : List String) (staged : Obj) (errors : List Val)
    (h : (drain env config lastState queue staged errors).thrown = none) :
    (drain env config lastState queue staged errors).keysToProcess = [] := by
  induction queue generalizing staged errors with
  | nil => simp [drain]
  | cons key rest ih =>
    cases hpipe : applyTransforms (transformsOf config) key lastState (get lastState key) with
    | error e =>
      rw [drain_cons_error _ _ _ _ _ _ _ _ hpipe] at h
      cases h
    | ok endState =>
      rw [drain_cons_ok _ _ _ _ _ _ _ _ hpipe] at h ⊢
      exact ih _ _ h

theorem drain_keys_subset (env : Env) (config : PersistConfig) (lastState : Obj)
    (queue : List String) (staged : Obj) (errors : List Val) (k : String)
    (h : k ∈ keys (drain env config lastState queue staged errors).stagedState) :
    k ∈ keys staged ∨ k ∈ queue := by
  induction queue generalizing staged errors with
  | nil => exact Or.inl (by simpa [drain] using h)
  | cons key rest ih =>
    cases hpipe : applyTransforms (transformsOf config) key lastState (get lastState key) with
    | error e =>
      rw [drain_cons_error _ _ _ _ _ _ _ _ hpipe] at h
      exact Or.inl h
    | ok endState =>
      rw [drain_cons_ok _ _ _ _ _ _ _ _ hpipe] at h
      rcases ih _ _ h with h1 | h1
      · rcases mem_keys_stageKey _ _ _ _ _ _ _ h1 with h2 | h2
        · exact Or.inr (by simp [h2])
        · exact Or.inl h2
      · exact Or.inr (List.mem_cons_of_mem _ h1)

theorem drain_lookup (env : Env) (config : PersistConfig) (lastState : Obj)
    (queue : List String) (staged : Obj) (errors : List Val) (k : String) :
    (k ∉ queue → lookup (drain env config lastState queue staged errors).stagedState k
        = lookup staged k) ∧
    (k ∈ queue → k ∉ (drain env config lastState queue staged errors).keysToProcess →
      lookup (drain env config lastState queue staged errors).stagedState k
        = stagedEntry env config lastState k (lookup staged k)) := by
  induction queue generalizing staged errors with
  | nil => simp [drain]
  | cons key rest ih =>
    cases hpipe : applyTransforms (transformsOf config) key lastState (get lastState key) with
    | error e =>
      rw [drain_cons_error _ _ _ _ _ _ _ _ hpipe]
      refine ⟨fun _ => rfl, fun hin hnot => ?_⟩
      have hk : k = key := by
        rcases List.mem_cons.mp hin with h1 | h1
        · exact h1
        · exact absurd h1 hnot
      subst hk
      simp [stagedEntry, hpipe]
    | ok endState =>
      rw [drain_cons_ok _ _ _ _ _ _ _ _ hpipe]
      have hst := lookup_stageKey env config lastState key endState staged errors hpipe
      obtain ⟨ih1, ih2⟩ := ih (stageKey env config key endState staged errors).1
        (stageKey env config key endState staged errors).2
      refine ⟨fun hnot => ?_, fun hin hrem => ?_⟩
      · have hne : k ≠ key := fun e => hnot (by simp [e])
        have hnr : k ∉ rest := fun hm => hnot (List.mem_cons_of_mem _ hm)
        rw [ih1 hnr, hst k]
        simp [hne]
      · by_cases hr : k ∈ rest
        · rw [ih2 hr hrem, hst k]
          by_cases hk : k = key
          · subst hk
            simp [stagedEntry_idem]
          · simp [hk]
        · have hk : k = key := by
            rcases List.mem_cons.mp hin with h1 | h1
            · exact h1
            · exact absurd h1 hr
          rw [ih1 hr, hst k]
          simp [hk]

theorem processKeys_keysToProcess (env : Env) (config : PersistConfig) (st : State) :
    (processKeys env config st).1.keysToProcess =
      (drain env config st.lastState st.keysToProcess st.stagedState st.errors).keysToProcess := by
  unfold processKeys
  simp only []
  split
  · rfl
  · split <;> rfl

theorem processKeys_stagedState (env : Env) (config : PersistConfig) (st : State) :
    (processKeys env config st).1.stagedState =
        (drain env config st.lastState st.keysToProcess st.stagedState st.errors).stagedState ∨
    (processKeys env config st).1.stagedState = cleanup st.lastState
        (drain env config st.lastState st.keysToProcess st.stagedState st.errors).stagedState := by
  unfold processKeys
  simp only []
  split
  · exact Or.inl rfl
  · split <;> exact Or.inr rfl

theorem processKeys_ok (env : Env) (config : PersistConfig) (st : State)
    (h : (processKeys env config st).2 = none) :
    (drain env config st.lastState st.keysToProcess st.stagedState st.errors).thrown = none ∧
    (processKeys env config st).1.stagedState = cleanup st.lastState
        (drain env config st.lastState st.keysToProcess st.stagedState st.errors).stagedState ∧
    ∃ record, serialize env config (stagedVal (processKeys env config st).1.stagedState)
        = .ok record ∧
      (processKeys env config st).1.writes = st.writes ++ [(storageKey env config, record)] ∧
      (processKeys env config st).1.writePromise = some st.writes.length := by
  cases hth : (drain env config st.lastState st.keysToProcess st.stagedState
      st.errors).thrown with
  | some e => simp [processKeys, hth] at h
  | none =>
    cases hrec : serialize env config (stagedVal (cleanup st.lastState
        (drain env config st.lastState st.keysToProcess st.stagedState
          st.errors).stagedState)) with
    | error e => simp [processKeys, hth, hrec] at h
    | ok record => simp [processKeys, hth, hrec]

theorem processKeys_writes (env : Env) (config : PersistConfig) (st : State) :
    (processKeys env config st).1.writes = st.writes ∨
    ∃ record, serialize env config (stagedVal (processKeys env config st).1.stagedState)
        = .ok record ∧
      (processKeys env config st).1.writes = st.writes ++ [(storageKey env config, record)] := by
  unfold processKeys
  simp only []
  split
  · exact Or.inl rfl
  · split
    · exact Or.inl rfl
    · rename_i record hrec
      exact Or.inr ⟨record, hrec, rfl⟩

theorem processKeys_lastState (env : Env) (config : PersistConfig) (st : State) :
    (processKeys env config st).1.lastState = st.lastState := by
  unfold processKeys
  simp only []
  split
  · rfl
  · split <;> rfl

theorem update_false_keysToProcess (env : Env) (config : PersistConfig)
    (state : Obj) (st : State) :
    (update env config false state st).1.keysToProcess =
      enqueue config st.lastState state st.keysToProcess := rfl

theorem update_false_errors (env : Env) (config : PersistConfig)
    (state : Obj) (st : State) :
    (update env config false state st).1.errors = st.errors := rfl

theorem update_true (env : Env) (config : PersistConfig) (state : Obj) (st : State) :
    update env config true state st =
      processKeys env config (update env config false state st).1 := rfl

theorem flush_fst (env : Env) (config : PersistConfig) (st : State) :
    (flush env config st).1 = (processKeys env config st).1 := by
  unfold flush
  split <;> (rename_i heq; rw [heq])

theorem flush_ok (env : Env) (config : PersistConfig) (st : State) (handle : Handle)
    (h : (flush env config st).2 = .ok handle) : (processKeys env config st).2 = none := by
  unfold flush at h
  split at h
  · cases h
  · rename_i heq
    rw [heq]

theorem flush_of_ok (env : Env) (config : PersistConfig) (st : State)
    (h : (processKeys env config st).2 = none) :
    (flush env config st).2 = .ok (.ofWrite st.writes.length) := by
  obtain ⟨_, _, record, _, _, hp⟩ := processKeys_ok env config st h
  unfold flush
  split
  · rename_i heq
    rw [heq] at h
    cases h
  · rename_i st1 heq
    rw [heq] at hp
    simp only [] at hp
    simp [hp]

/-! ## The key filter -/

/-- C2: `passWhitelistBlacklist(key)` is true exactly when (the whitelist is
unset, or holds the key, or the key is the control key `_persist`) and (the
blacklist is unset or does not hold the key); so the control key passes every
whitelist and is stopped by the blacklist alone. -/
theorem passWhitelistBlacklist_iff (config : PersistConfig) (key : String) :
    (passWhitelistBlacklist config key = true ↔
      ((config.whitelist = none ∨ (∃ wl, config.whitelist = some wl ∧ key ∈ wl)
          ∨ key = "_persist") ∧
       (config.blacklist = none ∨ ∃ bl, config.blacklist = some bl ∧ key ∉ bl))) ∧
    (passWhitelistBlacklist config "_persist" = true ↔
      (config.blacklist = none ∨ ∃ bl, config.blacklist = some bl ∧ "_persist" ∉ bl)) := by
  have main : ∀ k : String, passWhitelistBlacklist config k = true ↔
      ((config.whitelist = none ∨ (∃ wl, config.whitelist = some wl ∧ k ∈ wl)
          ∨ k = "_persist") ∧
       (config.blacklist = none ∨ ∃ bl, config.blacklist = some bl ∧ k ∉ bl)) := by
    intro k
    unfold passWhitelistBlacklist
    rcases hw : config.whitelist with _ | wl <;> rcases hb : config.blacklist with _ | bl
    · simp
    · by_cases hk : k ∈ bl
      · have : indexOf bl k ≠ -1 := fun e => (indexOf_eq_neg_one_iff bl k).mp e hk
        simp [this, hk]
      · have : indexOf bl k = -1 := (indexOf_eq_neg_one_iff bl k).mpr hk
        simp [this, hk]
    · by_cases hk : k ∈ wl
      · have : indexOf wl k ≠ -1 := fun e => (indexOf_eq_neg_one_iff wl k).mp e hk
        simp [this, hk]
      · have : indexOf wl k = -1 := (indexOf_eq_neg_one_iff wl k).mpr hk
        simp [this, hk]
    · by_cases hk : k ∈ wl <;> by_cases hk2 : k ∈ bl
      · have h1 : indexOf wl k ≠ -1 := fun e => (indexOf_eq_neg_one_iff wl k).mp e hk
        have h2 : indexOf bl k ≠ -1 := fun e => (indexOf_eq_neg_one_iff bl k).mp e hk2
        simp [h1, h2, hk, hk2]
      · have h1 : indexOf wl k ≠ -1 := fun e => (indexOf_eq_neg_one_iff wl k).mp e hk
        have h2 : indexOf bl k = -1 := (indexOf_eq_neg_one_iff bl k).mpr hk2
        simp [h1, h2, hk, hk2]
      · have h1 : indexOf wl k = -1 := (indexOf_eq_neg_one_iff wl k).mpr hk
        have h2 : indexOf bl k ≠ -1 := fun e => (indexOf_eq_neg_one_iff bl k).mp e hk2
        simp [h1, h2, hk, hk2]
      · have h1 : indexOf wl k = -1 := (indexOf_eq_neg_one_iff wl k).mpr hk
        have h2 : indexOf bl k = -1 := (indexOf_eq_neg_one_iff bl k).mpr hk2
        simp [h1, h2, hk, hk2]
  refine ⟨main key, ?_⟩
  rw [main "_persist"]
  simp

/-! ## The enqueue step of `update` -/

/-- C6, the claim fails: on the fresh instance, whose queue is empty, `flush`
hands a record to storage, and a second `flush` right after hands it another
one. -/
theorem flush_empty_queue_still_writes :
    State.init.keysToProcess = [] ∧
    (flush exampleEnv plainConfig State.init).1.writes = [("persist:root", .str "\x7b\x7d")] ∧
    (flush exampleEnv plainConfig State.init).2 = .ok (.ofWrite 0) ∧
    (flush exampleEnv plainConfig (flush exampleEnv plainConfig State.init).1).1.writes
      = [("persist:root", .str "\x7b\x7d"), ("persist:root", .str "\x7b\x7d")] :=
  ⟨rfl, rfl, rfl, rfl⟩

/-- C6 as amended: with an empty queue `flush` still runs a cycle; no key is
processed, the staged map is reconciled with the snapshot and, when its
encoding succeeds, one record is written and the handle of that new write is
returned; a second `flush` right after writes the same record once more and
returns the handle of the second write. -/
theorem flush_empty_queue (env : Env) (config : PersistConfig) (st : State) (record : Val)
    (hq : st.keysToProcess = [])
    (hrec : serialize env config (stagedVal (cleanup st.lastState st.stagedState))
      = .ok record) :
    flush env config st =
      ({ st with stagedState := cleanup st.lastState st.stagedState,
                 writes := st.writes ++ [(storageKey env config, record)],
                 writePromise := some st.writes.length },
       .ok (.ofWrite st.writes.length)) ∧
    flush env config (flush env config st).1 =
      ({ st with stagedState := cleanup st.lastState st.stagedState,
                 writes := st.writes ++ [(storageKey env config, record),
                                         (storageKey env config, record)],
                 writePromise := some (st.writes.length + 1) },
       .ok (.ofWrite (st.writes.length + 1))) := by
  have h1 : flush env config st =
      ({ st with stagedState := cleanup st.lastState st.stagedState,
                 writes := st.writes ++ [(storageKey env config, record)],
                 writePromise := some st.writes.length },
       .ok (.ofWrite st.writes.length)) := by
    simp [flush, processKeys, drain, hq, hrec]
  refine ⟨h1, ?_⟩
  rw [h1]
  simp [flush, processKeys, drain, hq, hrec, cleanup_idem]

/-- C6 as amended, at a concrete input: a staged entry whose key left the
snapshot is reconciled away and the empty record is written. -/
theorem flush_empty_queue_witness :
    (flush exampleEnv plainConfig
      { State.init with stagedState := [("old", .str "1")] }).1.writes
      = [("persist:root", .str "\x7b\x7d")] :=
  congrArg (fun r => r.1.writes)
    (flush_empty_queue exampleEnv plainConfig
      { State.init with stagedState := [("old", .str "1")] } (.str "\x7b\x7d") rfl rfl).1

/-! ## The blacklist -/

theorem pass_false_of_blacklisted (config : PersistConfig) (bl : List String) (key : String)
    (hbl : config.blacklist = some bl) (hkey : key ∈ bl) :
    passWhitelistBlacklist config key = false := by
  have hidx : indexOf bl key ≠ -1 := fun e => (indexOf_eq_neg_one_iff bl key).mp e hkey
  unfold passWhitelistBlacklist
  rw [hbl]
  cases config.whitelist <;> simp [hidx]

theorem filterInv_init (env : Env) (config : PersistConfig) :
    FilterInv env config State.init := by
  refine ⟨?_, ?_, ?_⟩ <;> simp [State.init, keys]

theorem filterInv_processKeys (env : Env) (config : PersistConfig) (st : State)
    (h : FilterInv env config st) : FilterInv env config (processKeys env config st).1 := by
  obtain ⟨hq, hs, hw⟩ := h
  have hdr : ∀ k ∈ keys (drain env config st.lastState st.keysToProcess st.stagedState
      st.errors).stagedState, passWhitelistBlacklist config k = true := by
    intro k hk
    rcases drain_keys_subset _ _ _ _ _ _ _ hk with h1 | h1
    · exact hs k h1
    · exact hq k h1
  have hst : ∀ k ∈ keys (processKeys env config st).1.stagedState,
      passWhitelistBlacklist config k = true := by
    intro k hk
    rcases processKeys_stagedState env config st with h1 | h1
    · rw [h1] at hk
      exact hdr k hk
    · rw [h1] at hk
      exact hdr k ((mem_keys_cleanup _ _ _).mp hk).2
  refine ⟨?_, hst, ?_⟩
  · intro k hk
    rw [processKeys_keysToProcess] at hk
    exact hq k (drain_queue_subset _ _ _ _ _ _ _ hk)
  · intro w hmem
    rcases processKeys_writes env config st with h1 | ⟨record, hrec, h1⟩
    · rw [h1] at hmem
      exact hw w hmem
    · rw [h1] at hmem
      rcases List.mem_append.mp hmem with h2 | h2
      · exact hw w h2
      · have hwe : w = (storageKey env config, record) := by simpa using h2
        subst hwe
        exact ⟨_, hrec, hst⟩

theorem filterInv_update_false (env : Env) (config : PersistConfig) (state : Obj)
    (st : State) (h : FilterInv env config st) :
    FilterInv env config (update env config false state st).1 := by
  obtain ⟨hq, hs, hw⟩ := h
  refine ⟨?_, hs, hw⟩
  intro k hk
  rw [update_false_keysToProcess, mem_enqueue] at hk
  rcases hk with h1 | h1
  · exact hq k h1
  · exact h1.2.1

theorem filterInv_step (env : Env) (config : PersistConfig) (st : State) (c : Call)
    (h : FilterInv env config st) : FilterInv env config (step env config st c) := by
  cases c with
  | update state fires =>
    cases fires
    · exact filterInv_update_false env config state st h
    · simp only [step, update_true]
      exact filterInv_processKeys env config _ (filterInv_update_false env config state st h)
  | flush =>
    simp only [step, flush_fst]
    exact filterInv_processKeys env config st h
  | timer => exact filterInv_processKeys env config st h

theorem filterInv_run (env : Env) (config : PersistConfig) (calls : List Call) (st : State)
    (h : FilterInv env config st) : FilterInv env config (run env config st calls) := by
  induction calls generalizing st with
  | nil => exact h
  | cons c rest ih => exact ih _ (filterInv_step env config st c h)

/-- C7: after any sequence of `update`, `flush` and throttle-run cycles on a
fresh instance, a key of the configured blacklist is no key of the staged
map, and every record handed to storage encodes a map without that key. -/
theorem blacklisted_key_never_staged (env : Env) (config : PersistConfig)
    (calls : List Call) (bl : List String) (key : String)
    (hbl : config.blacklist = some bl) (hkey : key ∈ bl) :
    key ∉ keys (run env config State.init calls).stagedState ∧
    ∀ w ∈ (run env config State.init calls).writes,
      ∃ m : Obj, serialize env config (stagedVal m) = .ok w.2 ∧ key ∉ keys m := by
  obtain ⟨_, hs, hw⟩ := filterInv_run env config calls State.init (filterInv_init env config)
  have hpass := pass_false_of_blacklisted config bl key hbl hkey
  refine ⟨fun hmem => ?_, fun w hmem => ?_⟩
  · rw [hs key hmem] at hpass
    cases hpass
  · obtain ⟨m, hm, hkeys⟩ := hw w hmem
    refine ⟨m, hm, fun hk => ?_⟩
    rw [hkeys key hk] at hpass
    cases hpass

/-- C7 at a concrete input: the blacklisted key `secret` is present and
changes between two snapshots. -/
theorem blacklisted_key_never_staged_witness :
    "secret" ∉ keys (run exampleEnv { plainConfig with blacklist := some ["secret"] }
      State.init
      [.update [("secret", .num 1), ("a", .num 1)] true,
       .update [("secret", .num 2), ("a", .num 1)] false,
       .flush]).stagedState :=
  (blacklisted_key_never_staged exampleEnv { plainConfig with blacklist := some ["secret"] }
    [.update [("secret", .num 1), ("a", .num 1)] true,
     .update [("secret", .num 2), ("a", .num 1)] false,
     .flush] ["secret"] "secret" rfl (by decide)).1

/-! ## Reconciliation with the latest snapshot -/

theorem applyTransforms_eq_reduceStages (transforms : List Transform) (key : String)
    (snapshot : Obj) (value : Val) :
    applyTransforms transforms key snapshot value =
      reduceStages transforms key snapshot value := by
  induction transforms generalizing value with
  | nil => rfl
  | cons stage rest ih =>
    unfold applyTransforms at ih ⊢
    rw [List.foldlM_cons, reduceStages]
    cases hs : stage value key snapshot with
    | error e => rfl
    | ok next => exact ih next

theorem stagedEntry_of_undefined (env : Env) (config : PersistConfig) (lastState : Obj)
    (key : String) (prior : Option Val)
    (hres : applyTransforms (transformsOf config) key lastState (get lastState key)
      = .ok .undefined) :
    stagedEntry env config lastState key prior = none := by
  simp [stagedEntry, hres, Val.isUndefined]

theorem stagedEntry_of_encoded (env : Env) (config : PersistConfig) (lastState : Obj)
    (key : String) (prior : Option Val) (result encoded : Val)
    (hres : applyTransforms (transformsOf config) key lastState (get lastState key)
      = .ok result)
    (hdef : result.isUndefined = false)
    (henc : serialize env config result = .ok encoded) :
    stagedEntry env config lastState key prior = some encoded := by
  simp [stagedEntry, hres, hdef, henc]

theorem drain_lookup_stable (env : Env) (config : PersistConfig) (lastState : Obj)
    (key : String) (encoded : Val)
    (hentry : ∀ prior, stagedEntry env config lastState key prior = some encoded)
    (queue : List String) (staged : Obj) (errors : List Val)
    (h : lookup staged key = some encoded) :
    lookup (drain env config lastState queue staged errors).stagedState key
      = some encoded := by
  induction queue generalizing staged errors with
  | nil => simpa [drain] using h
  | cons k rest ih =>
    cases hpipe : applyTransforms (transformsOf config) k lastState (get lastState k) with
    | error e =>
      rw [drain_cons_error _ _ _ _ _ _ _ _ hpipe]
      exact h
    | ok endState =>
      rw [drain_cons_ok _ _ _ _ _ _ _ _ hpipe]
      apply ih
      rw [lookup_stageKey env config lastState k endState staged errors hpipe]
      by_cases hk : key = k
      · subst hk
        simp [hentry]
      · simp [hk, h]

/-- C9, the claim fails: the first stage returns `undefined` for key `a`, the
second stage turns that into `5`, and after the cycle `a` is staged and
written. -/
theorem stage_returning_undefined_still_staged :
    dropStage (.num 1) "a" [("a", .num 1)] = .ok .undefined ∧
    (update exampleEnv { plainConfig with transforms := some [dropStage, fillStage] }
      true [("a", .num 1)] State.init).1.stagedState = [("a", .str "5")] ∧
    (update exampleEnv { plainConfig with transforms := some [dropStage, fillStage] }
      true [("a", .num 1)] State.init).1.writes
      = [("persist:root", .str "\x7b\"a\":\"5\"\x7d")] :=
  ⟨rfl, rfl, rfl⟩

/-- C9 as amended: when the end result of the pipeline for a key (what the
last stage returns) is `undefined`, a cycle that dequeues the key leaves it
out of the staged map, whatever entry it had before, and a record written by
that cycle encodes this staged map. -/
theorem undefined_result_unstages (env : Env) (config : PersistConfig) (st : State)
    (key : String)
    (hq : key ∈ st.keysToProcess)
    (hdeq : key ∉ (processKeys env config st).1.keysToProcess)
    (hres : applyTransforms (transformsOf config) key st.lastState (get st.lastState key)
      = .ok .undefined) :
    key ∉ keys (processKeys env config st).1.stagedState ∧
    ((processKeys env config st).1.writes = st.writes ∨
      ∃ record,
        serialize env config (stagedVal (processKeys env config st).1.stagedState)
          = .ok record ∧
        (processKeys env config st).1.writes
          = st.writes ++ [(storageKey env config, record)]) := by
  refine ⟨?_, processKeys_writes env config st⟩
  rw [processKeys_keysToProcess] at hdeq
  have hdr : lookup (drain env config st.lastState st.keysToProcess st.stagedState
      st.errors).stagedState key = none := by
    rw [(drain_lookup env config st.lastState _ st.stagedState st.errors key).2 hq hdeq]
    exact stagedEntry_of_undefined env config st.lastState key _ hres
  rw [← lookup_eq_none_iff]
  rcases processKeys_stagedState env config st with h1 | h1
  · rw [h1]
    exact hdr
  · rw [h1, lookup_cleanup, hdr]
    simp

/-- C9 as amended, at a concrete input: `a` has a staged entry and the only
stage returns `undefined`. -/
theorem undefined_result_unstages_witness :
    "a" ∉ keys (processKeys exampleEnv { plainConfig with transforms := some [dropStage] }
      { State.init with lastState := [("a", .num 1)],
                        stagedState := [("a", .str "0")],
                        keysToProcess := ["a"] }).1.stagedState :=
  (undefined_result_unstages exampleEnv { plainConfig with transforms := some [dropStage] }
    { State.init with lastState := [("a", .num 1)],
                      stagedState := [("a", .str "0")],
                      keysToProcess := ["a"] } "a" (by decide) (by decide) rfl).1

/-- C10: let `result` be the left-to-right fold of the configured stages,
each called with the value so far, the key and the latest snapshot, started
at the snapshot's value at `key`; when it is not `undefined` and its encoding
`encoded` succeeds, the loop body for `key` assigns `encoded` to the staged
entry and goes on with the rest of the queue, the entry is still `encoded`
when the loop ends, and it is in the staged map after the cycle when the
snapshot's value at `key` is not `undefined`; with no stage configured
`result` is the snapshot's value itself. -/
theorem staged_entry_is_encoded_fold (env : Env) (config : PersistConfig) (st : State)
    (key : String) (rest : List String) (result encoded : Val)
    (hq : st.keysToProcess = key :: rest)
    (hres : reduceStages (transformsOf config) key st.lastState (get st.lastState key)
      = .ok result)
    (hdef : result.isUndefined = false)
    (henc : serialize env config result = .ok encoded) :
    drain env config st.lastState st.keysToProcess st.stagedState st.errors =
      drain env config st.lastState rest (set st.stagedState key encoded) st.errors ∧
    lookup (set st.stagedState key encoded) key = some encoded ∧
    lookup (drain env config st.lastState st.keysToProcess st.stagedState
      st.errors).stagedState key = some encoded ∧
    ((get st.lastState key).isUndefined = false →
      lookup (processKeys env config st).1.stagedState key = some encoded) ∧
    (transformsOf config = [] → result = get st.lastState key) := by
  rw [← applyTransforms_eq_reduceStages] at hres
  have hstep : drain env config st.lastState st.keysToProcess st.stagedState st.errors =
      drain env config st.lastState rest (set st.stagedState key encoded) st.errors := by
    rw [hq, drain_cons_ok _ _ _ _ _ _ _ _ hres]
    simp [stageKey, hdef, henc]
  have hset : lookup (set st.stagedState key encoded) key = some encoded := by
    rw [lookup_set]
    simp
  have hend : lookup (drain env config st.lastState st.keysToProcess st.stagedState
      st.errors).stagedState key = some encoded := by
    rw [hstep]
    exact drain_lookup_stable env config st.lastState key encoded
      (fun prior => stagedEntry_of_encoded env config _ key prior result encoded
        hres hdef henc) rest _ _ hset
  refine ⟨hstep, hset, hend, fun hsnap => ?_, fun hnil => ?_⟩
  · rcases processKeys_stagedState env config st with h1 | h1
    · rw [h1]
      exact hend
    · rw [h1, lookup_cleanup, hend]
      simp [hsnap]
  · rw [hnil] at hres
    exact (Except.ok.inj hres).symm

/-- C10 at a concrete input: the first stage returns `5`, the second one
replaces it by the snapshot's value at `b`. -/
theorem staged_entry_is_encoded_fold_witness :
    lookup (processKeys exampleEnv
      { plainConfig with transforms := some [fillStage, copyStage] }
      { State.init with lastState := [("a", .num 1), ("b", .num 2)],
                        keysToProcess := ["a"] }).1.stagedState "a" = some (.str "2") :=
  (staged_entry_is_encoded_fold exampleEnv
    { plainConfig with transforms := some [fillStage, copyStage] }
    { State.init with lastState := [("a", .num 1), ("b", .num 2)],
                      keysToProcess := ["a"] } "a" [] (.num 2) (.str "2")
    rfl rfl rfl rfl).2.2.2.1 rfl

/-! ## The record of a flush -/

theorem stageKey_errors_mem (env : Env) (config : PersistConfig) (key : String)
    (endState : Val) (staged : Obj) (errors : List Val) (e : Val) (h : e ∈ errors) :
    e ∈ (stageKey env config key endState staged errors).2 := by
  unfold stageKey
  by_cases hu : endState.isUndefined = true
  · simpa [hu] using h
  · simp only [hu, Bool.not_false, if_true]
    cases serialize env config endState with
    | ok encoded => exact h
    | error err => exact List.mem_append_left _ h

theorem drain_errors_mem (env : Env) (config : PersistConfig) (lastState : Obj)
    (queue : List String) (staged : Obj) (errors : List Val) (e : Val) (h : e ∈ errors) :
    e ∈ (drain env config lastState queue staged errors).errors := by
  induction queue generalizing staged errors with
  | nil => simpa [drain] using h
  | cons key rest ih =>
    cases hpipe : applyTransforms (transformsOf config) key lastState (get lastState key) with
    | error e1 =>
      rw [drain_cons_error _ _ _ _ _ _ _ _ hpipe]
      exact h
    | ok endState =>
      rw [drain_cons_ok _ _ _ _ _ _ _ _ hpipe]
      exact ih _ _ (stageKey_errors_mem env config key endState staged errors e h)

theorem processKeys_errors (env : Env) (config : PersistConfig) (st : State) :
    (processKeys env config st).1.errors =
      (drain env config st.lastState st.keysToProcess st.stagedState st.errors).errors := by
  unfold processKeys
  simp only []
  split
  · rfl
  · split <;> rfl

theorem stagedEntry_of_failure (env : Env) (config : PersistConfig) (lastState : Obj)
    (key : String) (prior : Option Val) (result err : Val)
    (hres : applyTransforms (transformsOf config) key lastState (get lastState key)
      = .ok result)
    (hdef : result.isUndefined = false)
    (hfail : serialize env config result = .error err) :
    stagedEntry env config lastState key prior = prior := by
  simp [stagedEntry, hres, hdef, hfail]

theorem drain_thrown_of_returns (env : Env) (config : PersistConfig) (lastState : Obj)
    (queue : List String)
    (hstages : ∀ key ∈ queue, ∃ result,
      applyTransforms (transformsOf config) key lastState (get lastState key) = .ok result)
    (staged : Obj) (errors : List Val) :
    (drain env config lastState queue staged errors).thrown = none := by
  induction queue generalizing staged errors with
  | nil => rfl
  | cons key rest ih =>
    obtain ⟨result, hres⟩ := hstages key (by simp)
    rw [drain_cons_ok _ _ _ _ _ _ _ _ hres]
    exact ih (fun k hk => hstages k (List.mem_cons_of_mem _ hk)) _ _

theorem processKeys_of_returns (env : Env) (config : PersistConfig) (st : State)
    (hstages : ∀ key ∈ st.keysToProcess, ∃ result,
      applyTransforms (transformsOf config) key st.lastState (get st.lastState key)
        = .ok result)
    (hcodec : ∀ m : Obj, ∃ record, serialize env config (stagedVal m) = .ok record) :
    (processKeys env config st).2 = none := by
  have hth := drain_thrown_of_returns env config st.lastState st.keysToProcess hstages
    st.stagedState st.errors
  obtain ⟨record, hrec⟩ := hcodec (cleanup st.lastState
    (drain env config st.lastState st.keysToProcess st.stagedState st.errors).stagedState)
  simp [processKeys, hth, hrec]

/-- C11: when the pipeline result of the key at the head of the queue is not
`undefined` and its encoding throws `err`, the loop body logs `err`, leaves
the staged map as it is and goes on with the rest of the queue, so the cycle
is the cycle of the rest of the queue with `err` reported: the exception does
not escape and `err` is in the error log afterwards.  When the stages return
for the later keys and the staged map can be encoded, the cycle returns, it
has issued its write, and the key's staged entry is the prior one (for a key
whose snapshot value is not `undefined`). -/
theorem encoding_failure_is_reported (env : Env) (config : PersistConfig) (st : State)
    (key : String) (rest : List String) (result err : Val)
    (hq : st.keysToProcess = key :: rest)
    (hres : applyTransforms (transformsOf config) key st.lastState (get st.lastState key)
      = .ok result)
    (hdef : result.isUndefined = false)
    (hfail : serialize env config result = .error err) :
    drain env config st.lastState st.keysToProcess st.stagedState st.errors =
      drain env config st.lastState rest st.stagedState (st.errors ++ [err]) ∧
    processKeys env config st =
      processKeys env config { st with keysToProcess := rest, errors := st.errors ++ [err] } ∧
    err ∈ (processKeys env config st).1.errors ∧
    ((∀ k ∈ rest, ∃ r,
        applyTransforms (transformsOf config) k st.lastState (get st.lastState k) = .ok r) →
      (∀ m : Obj, ∃ record, serialize env config (stagedVal m) = .ok record) →
      (processKeys env config st).2 = none ∧
      (∃ record, (processKeys env config st).1.writes
        = st.writes ++ [(storageKey env config, record)]) ∧
      ((get st.lastState key).isUndefined = false →
        lookup (processKeys env config st).1.stagedState key
          = lookup st.stagedState key)) := by
  have hstep : drain env config st.lastState st.keysToProcess st.stagedState st.errors =
      drain env config st.lastState rest st.stagedState (st.errors ++ [err]) := by
    rw [hq, drain_cons_ok _ _ _ _ _ _ _ _ hres]
    simp [stageKey, hdef, hfail]
  refine ⟨hstep, ?_, ?_, fun hrest hcodec => ?_⟩
  · simp only [processKeys, hstep]
  · rw [processKeys_errors, hstep]
    exact drain_errors_mem env config _ _ _ _ err (by simp)
  · have hok : (processKeys env config st).2 = none := by
      apply processKeys_of_returns env config st _ hcodec
      intro k hk
      rw [hq] at hk
      rcases List.mem_cons.mp hk with h1 | h1
      · exact ⟨result, h1 ▸ hres⟩
      · exact hrest k h1
    obtain ⟨hth, hstaged, record, _, hw, _⟩ := processKeys_ok env config st hok
    refine ⟨hok, ⟨record, hw⟩, fun hsnap => ?_⟩
    rw [hstaged, lookup_cleanup]
    simp only [hsnap, Bool.false_eq_true, if_false]
    rw [(drain_lookup env config st.lastState _ st.stagedState st.errors key).2
      (by rw [hq]; simp) (by rw [drain_of_thrown_none _ _ _ _ _ _ hth]; simp)]
    exact stagedEntry_of_failure env config _ key _ result err hres hdef hfail

/-- C11 at a concrete input: `a` holds a value whose encoding throws and has
a staged entry, `b` comes after it in the queue. -/
theorem encoding_failure_is_reported_witness :
    (processKeys failingEnv plainConfig
      { State.init with lastState := [("a", .obj 7 []), ("b", .num 2)],
                        stagedState := [("a", .str "0")],
                        keysToProcess := ["a", "b"] }).1.errors = [typeError] ∧
    (processKeys failingEnv plainConfig
      { State.init with lastState := [("a", .obj 7 []), ("b", .num 2)],
                        stagedState := [("a", .str "0")],
                        keysToProcess := ["a", "b"] }).1.stagedState
      = [("a", .str "0"), ("b", .str "2")] ∧
    (processKeys failingEnv plainConfig
      { State.init with lastState := [("a", .obj 7 []), ("b", .num 2)],
                        stagedState := [("a", .str "0")],
                        keysToProcess := ["a", "b"] }).1.writes
      = [("persist:root", .str "\x7b\"a\":\"0\",\"b\":\"2\"\x7d")] :=
  ⟨congrArg (fun r => r.1.errors)
    (encoding_failure_is_reported failingEnv plainConfig
      { State.init with lastState := [("a", .obj 7 []), ("b", .num 2)],
                        stagedState := [("a", .str "0")],
                        keysToProcess := ["a", "b"] } "a" ["b"] (.obj 7 []) typeError
      rfl rfl rfl rfl).2.1,
   rfl, rfl⟩

/-- C13, the claim fails: the storage write of a `flush` on the fresh
instance is rejected without a reason (`undefined`); `onWriteFail` returns
without a report and the handle settles as a success. -/
theorem flush_handle_fulfils_on_failed_write :
    (flush exampleEnv plainConfig State.init).2 = .ok (.ofWrite 0) ∧
    onWriteFail .undefined .undefined = .ok [] ∧
    settleHandle .undefined (fun _ => .rejected .undefined) (.ofWrite 0)
      = .fulfilled .undefined :=
  ⟨rfl, rfl, rfl⟩

/-- C13 as amended: a `flush` that returns hands back the promise chained on
the write it has just issued.  When `setItem` succeeds the handle settles as a
success with the same value; when `setItem` fails the failure is passed to
`onWriteFail` and the handle settles with what the handler does: as a success
with `undefined` when the handler returns, which it does without a report for
a falsy failure, and as a failure with the handler's exception otherwise. -/
theorem flush_handle_settles (env : Env) (config : PersistConfig) (st : State)
    (handle : Handle) (throttledEnv : Val) (outcomes : Nat → Settled)
    (hflush : (flush env config st).2 = .ok handle) :
    handle = .ofWrite st.writes.length ∧
    (∃ record, (flush env config st).1.writes
      = st.writes ++ [(storageKey env config, record)]) ∧
    (∀ value, outcomes st.writes.length = .fulfilled value →
      settleHandle throttledEnv outcomes handle = .fulfilled value) ∧
    (∀ err, outcomes st.writes.length = .rejected err →
      settleHandle throttledEnv outcomes handle =
        match onWriteFail throttledEnv err with
        | .ok _ => .fulfilled .undefined
        | .error e => .rejected e) ∧
    (∀ err, truthy err = false → onWriteFail throttledEnv err = .ok []) := by
  have hok := flush_ok env config st handle hflush
  have hh : handle = .ofWrite st.writes.length := by
    have := flush_of_ok env config st hok
    rw [hflush] at this
    exact Except.ok.inj this
  obtain ⟨_, _, record, _, hw, _⟩ := processKeys_ok env config st hok
  subst hh
  refine ⟨rfl, ⟨record, by rw [flush_fst, hw]⟩, fun value hv => ?_, fun err he => ?_,
    fun err hf => ?_⟩
  · simp [settleHandle, settle, hv]
  · simp [settleHandle, settle, he]
  · simp [onWriteFail, hf]

/-- C13 as amended, at a concrete input: the write of a `flush` on the fresh
instance succeeds with `null`, and so does the handle. -/
theorem flush_handle_settles_witness :
    settleHandle .undefined (fun _ => .fulfilled .null) (.ofWrite 0) = .fulfilled .null :=
  (flush_handle_settles exampleEnv plainConfig State.init (.ofWrite 0) .undefined
    (fun _ => .fulfilled .null) rfl).2.2.1 .null rfl

theorem onWriteFail_of_truthy_without_env (err : Val) (h : truthy err = true) :
    onWriteFail .undefined err = .error typeError := by
  simp [onWriteFail, h, getProp]

/-! ## The queue holds no key twice -/

theorem enqueueKey_nodup (config : PersistConfig) (lastState state : Obj)
    (queue : List String) (key : String) (h : queue.Nodup) :
    (enqueueKey config lastState state queue key).Nodup := by
  rw [enqueueKey_eq]
  by_cases hq : isEnqueued config lastState state queue key = true
  · simp only [hq, if_true]
    have hnot : key ∉ queue := by
      simp only [isEnqueued, Bool.and_eq_true, decide_eq_true_eq] at hq
      exact hq.2
    rw [List.nodup_append]
    refine ⟨h, List.nodup_singleton key, ?_⟩
    intro a ha hb
    rw [List.mem_singleton] at hb
    exact hnot (hb ▸ ha)
  · simpa [hq] using h

theorem enqueue_nodup (config : PersistConfig) (lastState state : Obj)
    (queue : List String) (h : queue.Nodup) :
    (enqueue config lastState state queue).Nodup := by
  unfold enqueue
  generalize keys state = ks
  induction ks generalizing queue with
  | nil => exact h
  | cons k ks ih =>
    rw [List.foldl_cons]
    exact ih _ (enqueueKey_nodup config lastState state queue k h)

theorem drain_queue_suffix (env : Env) (config : PersistConfig) (lastState : Obj)
    (queue : List String) (staged : Obj) (errors : List Val) :
    (drain env config lastState queue staged errors).keysToProcess <:+ queue := by
  induction queue generalizing staged errors with
  | nil => simp [drain]
  | cons key rest ih =>
    cases hpipe : applyTransforms (transformsOf config) key lastState (get lastState key) with
    | error e =>
      rw [drain_cons_error _ _ _ _ _ _ _ _ hpipe]
      exact List.suffix_cons key rest
    | ok endState =>
      rw [drain_cons_ok _ _ _ _ _ _ _ _ hpipe]
      exact (ih _ _).trans (List.suffix_cons key rest)

theorem processKeys_nodup (env : Env) (config : PersistConfig) (st : State)
    (h : st.keysToProcess.Nodup) : (processKeys env config st).1.keysToProcess.Nodup := by
  rw [processKeys_keysToProcess]
  exact h.sublist (drain_queue_suffix env config _ _ _ _).sublist

theorem step_nodup (env : Env) (config : PersistConfig) (st : State) (c : Call)
    (h : st.keysToProcess.Nodup) : (step env config st c).keysToProcess.Nodup := by
  cases c with
  | update state fires =>
    have h1 : (update env config false state st).1.keysToProcess.Nodup := by
      rw [update_false_keysToProcess]
      exact enqueue_nodup config _ _ _ h
    cases fires
    · exact h1
    · simp only [step, update_true]
      exact processKeys_nodup env config _ h1
  | flush =>
    simp only [step, flush_fst]
    exact processKeys_nodup env config st h
  | timer => exact processKeys_nodup env config st h

theorem run_nodup (env : Env) (config : PersistConfig) (calls : List Call) (st : State)
    (h : st.keysToProcess.Nodup) : (run env config st calls).keysToProcess.Nodup := by
  induction calls generalizing st with
  | nil => exact h
  | cons c rest ih => exact ih _ (step_nodup env config st c h)

/-- C14: after any sequence of `update` calls (with or without a cycle run by
the throttle), `flush` calls and throttle-run cycles on a fresh instance, also
cycles that end in an exception, the queue `keysToProcess` holds no key
twice. -/
theorem queue_never_holds_key_twice (env : Env) (config : PersistConfig)
    (calls : List Call) :
    (run env config State.init calls).keysToProcess.Nodup :=
  run_nodup env config calls State.init (by simp [State.init])

/-! ## The write of a cycle -/

theorem processKeys_writes_of_thrown (env : Env) (config : PersistConfig) (st : State)
    (h : (processKeys env config st).2 ≠ none) :
    (processKeys env config st).1.writes = st.writes := by
  rcases processKeys_writes env config st with h1 | ⟨record, hrec, _⟩
  · exact h1
  · exfalso
    apply h
    cases hth : (drain env config st.lastState st.keysToProcess st.stagedState
        st.errors).thrown with
    | some e =>
      have hs : (processKeys env config st).1.stagedState =
          (drain env config st.lastState st.keysToProcess st.stagedState
            st.errors).stagedState := by
        simp [processKeys, hth]
      have hw : (processKeys env config st).1.writes = st.writes := by
        simp [processKeys, hth]
      rename_i hw2
      rw [hw] at hw2
      have := congrArg List.length hw2
      simp at this
    | none =>
      cases hser : serialize env config (stagedVal (cleanup st.lastState
          (drain env config st.lastState st.keysToProcess st.stagedState
            st.errors).stagedState)) with
      | ok r => simp [processKeys, hth, hser]
      | error e =>
        have hs : (processKeys env config st).1.stagedState = cleanup st.lastState
            (drain env config st.lastState st.keysToProcess st.stagedState
              st.errors).stagedState := by
          simp [processKeys, hth, hser]
        rw [hs, hser] at hrec
        cases hrec

/-- C15, the claim fails: the stage of the queued key throws, the cycle ends
with that exception and no `setItem` call is made. -/
theorem cycle_with_raising_stage_writes_nothing :
    (processKeys exampleEnv { plainConfig with transforms := some [failStage] }
      { State.init with lastState := [("a", .num 1)], keysToProcess := ["a"] }).2
      = some (.str "stage failed") ∧
    (processKeys exampleEnv { plainConfig with transforms := some [failStage] }
      { State.init with lastState := [("a", .num 1)], keysToProcess := ["a"] }).1.writes
      = [] :=
  ⟨rfl, rfl⟩

/-- C15 as amended: a cycle whose stages return and whose staged map can be
encoded returns with exactly one `setItem` call added to the log; the call is
made after the queue has been drained and the staged map reconciled, its key
is `keyPrefix` followed by `key`, with `KEY_PREFIX` for the prefix only when
`keyPrefix` is undefined, and its value is the encoding of the whole staged
map.  A cycle that ends in an exception adds no call. -/
theorem cycle_writes_staged_map_once (env : Env) (config : PersistConfig) (st : State)
    (hstages : ∀ key ∈ st.keysToProcess, ∃ result,
      applyTransforms (transformsOf config) key st.lastState (get st.lastState key)
        = .ok result)
    (hcodec : ∀ m : Obj, ∃ record, serialize env config (stagedVal m) = .ok record) :
    (processKeys env config st).2 = none ∧
    (processKeys env config st).1.keysToProcess = [] ∧
    (processKeys env config st).1.stagedState = cleanup st.lastState
      (drain env config st.lastState st.keysToProcess st.stagedState st.errors).stagedState ∧
    (∃ record,
      serialize env config (stagedVal (processKeys env config st).1.stagedState)
        = .ok record ∧
      (processKeys env config st).1.writes
        = st.writes ++ [(storageKey env config, record)]) ∧
    (∀ p, config.keyPrefix = some p → storageKey env config = p ++ config.key) ∧
    (config.keyPrefix = none → storageKey env config = env.KEY_PREFIX ++ config.key) ∧
    (∀ st1 : State, (processKeys env config st1).2 ≠ none →
      (processKeys env config st1).1.writes = st1.writes) := by
  have hok := processKeys_of_returns env config st hstages hcodec
  obtain ⟨hth, hstaged, record, hrec, hw, _⟩ := processKeys_ok env config st hok
  refine ⟨hok, ?_, hstaged, ⟨record, hrec, hw⟩, fun p hp => ?_, fun hp => ?_,
    fun st1 h1 => processKeys_writes_of_thrown env config st1 h1⟩
  · rw [processKeys_keysToProcess]
    exact drain_of_thrown_none _ _ _ _ _ _ hth
  · simp [storageKey, hp]
  · simp [storageKey, hp]

/-- C15 as amended, at a concrete input: the prefix is the empty string, one key is
queued and one staged key has left the snapshot. -/
theorem cycle_writes_staged_map_once_witness :
    (processKeys exampleEnv { plainConfig with keyPrefix := some "" }
      { State.init with lastState := [("a", .num 1)],
                        stagedState := [("old", .str "9")],
                        keysToProcess := ["a"] }).1.writes
      = [("root", .str "\x7b\"a\":\"1\"\x7d")] := by
  obtain ⟨_, _, _, ⟨record, hrec, hw⟩, _⟩ :=
    cycle_writes_staged_map_once exampleEnv { plainConfig with keyPrefix := some "" }
      { State.init with lastState := [("a", .num 1)],
                        stagedState := [("old", .str "9")],
                        keysToProcess := ["a"] }
      (fun _ _ => ⟨_, rfl⟩) (fun _ => ⟨_, rfl⟩)
  rw [hw]
  have hr : record = .str "\x7b\"a\":\"1\"\x7d" := (Except.ok.inj hrec).symm
  rw [hr]
  rfl

/-! ## The codec switch -/

theorem strictEq_false_iff (v : Val) : strictEq v (.bool false) = true ↔ v = .bool false := by
  cases v with
  | bool b => cases b <;> simp [strictEq]
  | _ => simp [strictEq]

/-- C16: when `config.serialize` is `false` the codec is the identity: a
staged entry is the pipeline result itself and the value handed to storage is
the staged map itself; for every other value of `config.serialize` the codec
is `JSON.stringify`, for the staged entries and for the record. -/
theorem serialize_is_identity_iff_disabled (env : Env) (config : PersistConfig) :
    (config.serialize = .bool false →
      (∀ x, serialize env config x = .ok x) ∧
      (∀ key endState staged errors, endState.isUndefined = false →
        stageKey env config key endState staged errors = (set staged key endState, errors)) ∧
      (∀ st, (processKeys env config st).2 = none →
        (processKeys env config st).1.writes = st.writes ++
          [(storageKey env config, stagedVal (processKeys env config st).1.stagedState)])) ∧
    (config.serialize ≠ .bool false →
      (∀ x, serialize env config x = env.stringify x) ∧
      (∀ key endState staged errors, endState.isUndefined = false →
        stageKey env config key endState staged errors =
          match env.stringify endState with
          | .ok encoded => (set staged key encoded, errors)
          | .error err => (staged, errors ++ [err])) ∧
      (∀ st, (processKeys env config st).2 = none →
        ∃ record,
          env.stringify (stagedVal (processKeys env config st).1.stagedState) = .ok record ∧
          (processKeys env config st).1.writes
            = st.writes ++ [(storageKey env config, record)])) := by
  constructor
  · intro hoff
    have hser : ∀ x, serialize env config x = .ok x := by
      intro x
      simp [serialize, (strictEq_false_iff config.serialize).mpr hoff]
    refine ⟨hser, fun key endState staged errors hdef => ?_, fun st hok => ?_⟩
    · simp [stageKey, hdef, hser]
    · obtain ⟨_, _, record, hrec, hw, _⟩ := processKeys_ok env config st hok
      rw [hser] at hrec
      rw [hw, ← Except.ok.inj hrec]
  · intro hon
    have hne : strictEq config.serialize (.bool false) = false := by
      cases h : strictEq config.serialize (.bool false) with
      | false => rfl
      | true => exact absurd ((strictEq_false_iff config.serialize).mp h) hon
    have hser : ∀ x, serialize env config x = env.stringify x := by
      intro x
      simp [serialize, defaultSerialize, hne]
    refine ⟨hser, fun key endState staged errors hdef => ?_, fun st hok => ?_⟩
    · simp only [stageKey, hdef, Bool.not_false, if_true, hser]
    · obtain ⟨_, _, record, hrec, hw, _⟩ := processKeys_ok env config st hok
      rw [hser] at hrec
      exact ⟨record, hrec, hw⟩

/-- C16 at a concrete input: with `serialize: false` the object under `a` is
staged as it is and the record is the staged map. -/
theorem serialize_is_identity_iff_disabled_witness :
    (processKeys exampleEnv { plainConfig with serialize := .bool false }
      { State.init with lastState := [("a", .obj 3 [("n", .num 1)])],
                        keysToProcess := ["a"] }).1.writes
      = [("persist:root", .obj stagedRef [("a", .obj 3 [("n", .num 1)])])] :=
  ((serialize_is_identity_iff_disabled exampleEnv
      { plainConfig with serialize := .bool false }).1 rfl).2.2
    { State.init with lastState := [("a", .obj 3 [("n", .num 1)])],
                      keysToProcess := ["a"] } rfl

/-! ## Termination and the order of processing -/

theorem drain_eq_foldl (env : Env) (config : PersistConfig) (lastState : Obj)
    (result : String → Val) (queue : List String)
    (hstages : ∀ key ∈ queue,
      applyTransforms (transformsOf config) key lastState (get lastState key)
        = .ok (result key))
    (staged : Obj) (errors : List Val) :
    drain env config lastState queue staged errors =
      { keysToProcess := [],
        stagedState := (queue.foldl (fun acc key =>
          stageKey env config key (result key) acc.1 acc.2) (staged, errors)).1,
        errors := (queue.foldl (fun acc key =>
          stageKey env config key (result key) acc.1 acc.2) (staged, errors)).2,
        thrown := none } := by
  induction queue generalizing staged errors with
  | nil => rfl
  | cons key rest ih =>
    rw [drain_cons_ok _ _ _ _ _ _ _ _ (hstages key (by simp)),
      ih (fun k hk => hstages k (List.mem_cons_of_mem _ hk)), List.foldl_cons]

/-- C17: `processKeys` is a total function of the state, and when the stages
return for the queued keys (`result key` being the pipeline result), its loop
is the left fold of the loop body over the queue, so every queued key is
taken once, first in first out, and the queue is empty afterwards, whether
the write that follows is issued or the encoding of the staged map throws. -/
theorem processKeys_drains_queue (env : Env) (config : PersistConfig) (st : State)
    (result : String → Val)
    (hstages : ∀ key ∈ st.keysToProcess,
      applyTransforms (transformsOf config) key st.lastState (get st.lastState key)
        = .ok (result key)) :
    drain env config st.lastState st.keysToProcess st.stagedState st.errors =
      { keysToProcess := [],
        stagedState := (st.keysToProcess.foldl (fun acc key =>
          stageKey env config key (result key) acc.1 acc.2)
            (st.stagedState, st.errors)).1,
        errors := (st.keysToProcess.foldl (fun acc key =>
          stageKey env config key (result key) acc.1 acc.2)
            (st.stagedState, st.errors)).2,
        thrown := none } ∧
    (processKeys env config st).1.keysToProcess = [] ∧
    (processKeys env config st).1.stagedState = cleanup st.lastState
      (st.keysToProcess.foldl (fun acc key =>
        stageKey env config key (result key) acc.1 acc.2)
          (st.stagedState, st.errors)).1 := by
  have hd := drain_eq_foldl env config st.lastState result st.keysToProcess hstages
    st.stagedState st.errors
  refine ⟨hd, ?_, ?_⟩
  · rw [processKeys_keysToProcess, hd]
  · unfold processKeys
    simp only [hd]
    split <;> rfl

/-- C17 at a concrete input: three queued keys; the second one is staged
after the first and the third one is unstaged. -/
theorem processKeys_drains_queue_witness :
    (processKeys exampleEnv plainConfig
      { State.init with lastState := [("a", .num 1), ("b", .num 2), ("c", .undefined)],
                        stagedState := [("c", .str "3")],
                        keysToProcess := ["b", "a", "c"] }).1.keysToProcess = [] :=
  (processKeys_drains_queue exampleEnv plainConfig
    { State.init with lastState := [("a", .num 1), ("b", .num 2), ("c", .undefined)],
                      stagedState := [("c", .str "3")],
                      keysToProcess := ["b", "a", "c"] }
    (fun key => get [("a", .num 1), ("b", .num 2), ("c", .undefined)] key)
    (fun _ _ => rfl)).2.1

/-! ## What a cycle leaves alone -/

/-- C18: a cycle, however it ends, leaves the latest snapshot as it is and
leaves the staged entry of every key that was not in the queue and whose
value in the latest snapshot is not `undefined` as it was. -/
theorem cycle_frame (env : Env) (config : PersistConfig) (st : State) (key : String)
    (hq : key ∉ st.keysToProcess)
    (hsnap : (get st.lastState key).isUndefined = false) :
    lookup (processKeys env config st).1.stagedState key = lookup st.stagedState key ∧
    (processKeys env config st).1.lastState = st.lastState := by
  refine ⟨?_, processKeys_lastState env config st⟩
  have hd := (drain_lookup env config st.lastState st.keysToProcess st.stagedState
    st.errors key).1 hq
  rcases processKeys_stagedState env config st with h1 | h1
  · rw [h1, hd]
  · rw [h1, lookup_cleanup, hd]
    simp [hsnap]

/-- C18 at a concrete input: `b` is queued and `a` is not. -/
theorem cycle_frame_witness :
    lookup (processKeys exampleEnv plainConfig
      { State.init with lastState := [("a", .num 1), ("b", .num 2)],
                        stagedState := [("a", .str "0")],
                        keysToProcess := ["b"] }).1.stagedState "a" = some (.str "0") :=
  (cycle_frame exampleEnv plainConfig
    { State.init with lastState := [("a", .num 1), ("b", .num 2)],
                      stagedState := [("a", .str "0")],
                      keysToProcess := ["b"] } "a" (by decide) rfl).1

/-! ## Running a cycle twice -/

/-- C19: after a cycle that returned, a second cycle with no `update` in
between returns as well, leaves the staged map, the latest snapshot, the
empty queue and the error log as they are, and hands storage one more record,
equal to the record of the first cycle. -/
theorem processKeys_idempotent (env : Env) (config : PersistConfig) (st : State)
    (hok : (processKeys env config st).2 = none) :
    (processKeys env config (processKeys env config st).1).2 = none ∧
    (processKeys env config (processKeys env config st).1).1.stagedState
      = (processKeys env config st).1.stagedState ∧
    (processKeys env config (processKeys env config st).1).1.lastState
      = (processKeys env config st).1.lastState ∧
    (processKeys env config st).1.keysToProcess = [] ∧
    (processKeys env config (processKeys env config st).1).1.keysToProcess = [] ∧
    (processKeys env config (processKeys env config st).1).1.errors
      = (processKeys env config st).1.errors ∧
    ∃ record,
      (processKeys env config st).1.writes
        = st.writes ++ [(storageKey env config, record)] ∧
      (processKeys env config (processKeys env config st).1).1.writes
        = st.writes ++ [(storageKey env config, record), (storageKey env config, record)] := by
  obtain ⟨hth, hstaged, record, hrec, hw, _⟩ := processKeys_ok env config st hok
  have hq : (processKeys env config st).1.keysToProcess = [] := by
    rw [processKeys_keysToProcess]
    exact drain_of_thrown_none _ _ _ _ _ _ hth
  have hl := processKeys_lastState env config st
  have hclean : cleanup (processKeys env config st).1.lastState
      (processKeys env config st).1.stagedState = (processKeys env config st).1.stagedState := by
    rw [hl, hstaged, cleanup_idem]
  have hrec2 : serialize env config (stagedVal (cleanup (processKeys env config st).1.lastState
      (processKeys env config st).1.stagedState)) = .ok record := by
    rw [hclean]
    exact hrec
  generalize processKeys env config st = r at hq hl hclean hrec2 hw ⊢
  obtain ⟨st1, out⟩ := r
  simp only [] at hq hl hclean hrec2 hw ⊢
  have h2 : processKeys env config st1 =
      ({ st1 with keysToProcess := [], stagedState := st1.stagedState, errors := st1.errors,
                  writes := st1.writes ++ [(storageKey env config, record)],
                  writePromise := some st1.writes.length }, none) := by
    rw [hclean] at hrec2
    simp [processKeys, hq, drain, hrec2, hclean]
  rw [h2]
  refine ⟨rfl, rfl, rfl, hq, rfl, rfl, record, hw, ?_⟩
  simp [hw]

/-- C19 at a concrete input: one queued key, and a stale staged key that the
first cycle reconciles away. -/
theorem processKeys_idempotent_witness :
    (processKeys exampleEnv plainConfig (processKeys exampleEnv plainConfig
      { State.init with lastState := [("a", .num 1)],
                        stagedState := [("old", .str "9")],
                        keysToProcess := ["a"] }).1).1.stagedState
      = [("a", .str "1")] :=
  (processKeys_idempotent exampleEnv plainConfig
    { State.init with lastState := [("a", .num 1)],
                      stagedState := [("old", .str "9")],
                      keysToProcess := ["a"] } rfl).2.1.trans rfl

end ReduxPersist
